import Mathlib

/-!
# Partitioned streaming writer (`pkg/writer/writer.go`)

A shallow embedding of the writer package of `golang-code-challenge` and the
properties of its classifier, serializer, batch store and writer selection.

Modelling conventions

* Go `int` values are `Int`; the only arithmetic the package performs on them is
  `dataType-1` and `i+1`, the first of which is taken modulo `2^64` (`wrap64`).
* Go `string` is `String`, `[]string` is `List String`, the nil slice is `[]`.
* `map[int]WritingCache` is a total function `Int → WritingCache`: reading a key
  that is absent from a Go map yields the nil slice.
* Channels are consumed as finite lists (`for x := range ch`), and every effect
  on the outside world (`WriteToFile`, a send on the output channel, the reset
  of a batch) is recorded, in program order, in a list of `Effect`s.
  `WriteToFile` is taken to return normally (the Go code aborts the process
  otherwise).
* Goroutine scheduling and blocking on the bounded channels are not modelled:
  a worker is run over the sequence of values that arrives on its channel.
* A run-time panic of a slice index is the result `none`.
-/

namespace Writer

/-! ## Data model (`pkg/models/models.go`) -/

/-- The Go struct `models.BrokerData`. -/
structure BrokerData where
  UserName : String
  ID : Int
  TrafficUsage : Int
  Ip : String
  Port : String
deriving DecidableEq, Repr

/-- Modelled from the spec: the declaration of `models.CsvData` is not among the
sources; the writer reads exactly the fields `BrokerInfo` (a `BrokerData`) and
`Mac` (a string) of it ("Record: carries a classification attribute and payload
fields"). -/
structure CsvData where
  BrokerInfo : BrokerData
  Mac : String
deriving DecidableEq, Repr

/-- The Go struct `MiddleWare`; its field `Type` is called `Typ` here. -/
structure MiddleWare where
  Data : String
  Typ : Int
deriving DecidableEq, Repr

/-- The Go type `WritingCache` (`[]string`). -/
abbrev WritingCache := List String

/-! ## Classifier and paths -/

/-- The Go function `getTypeData`. -/
def getTypeData (data : CsvData) : Int :=
  if data.BrokerInfo.TrafficUsage ≥ 0 ∧ data.BrokerInfo.TrafficUsage ≤ 100 then 1
  else if data.BrokerInfo.TrafficUsage ≥ 101 ∧ data.BrokerInfo.TrafficUsage ≤ 500 then 2
  else if data.BrokerInfo.TrafficUsage ≥ 501 ∧ data.BrokerInfo.TrafficUsage ≤ 1000 then 3
  else if data.BrokerInfo.TrafficUsage ≥ 1001 ∧ data.BrokerInfo.TrafficUsage ≤ 1500 then 4
  else 0

/-- The Go function `getPath`. -/
def getPath (dataType : Int) : String :=
  if dataType = 1 then "output/0_100.csv"
  else if dataType = 2 then "output/101_500.csv"
  else if dataType = 3 then "output/501_1000.csv"
  else if dataType = 4 then "output/1001_1500.csv"
  else ""

/-! ## Writer selection -/

/-- The four implementations of `WriterInterface`, over the types `I` and `O` of
the input and output channel handles. -/
inductive WriterImpl (I O : Type) where
  | SequentialWriter (InputChannel : I) (OutputChannel : O)
  | ConcurrentWriter (GoRoutinesCapacity : Int) (InputChannel : I) (OutputChannel : O)
  | MultiGoroutinesWriter (InputChannel : I) (OutputChannel : O)
  | HighConcurrentWriter (GoRoutinesCapacity : Int) (InputChannel : I) (OutputChannel : O)
deriving DecidableEq, Repr

/-- The Go function `GetNewWriter`; `none` is the nil interface value. -/
def GetNewWriter {I O : Type} (goRoutinesCapacity : Int) (inputChannel : I)
    (outputChannel : O) : Option (WriterImpl I O) :=
  if goRoutinesCapacity = 0 then
    some (.SequentialWriter inputChannel outputChannel)
  else if goRoutinesCapacity > 0 ∧ goRoutinesCapacity < 5 then
    some (.ConcurrentWriter goRoutinesCapacity inputChannel outputChannel)
  else if goRoutinesCapacity = 5 then
    some (.MultiGoroutinesWriter inputChannel outputChannel)
  else if goRoutinesCapacity ≥ 9 then
    some (.HighConcurrentWriter goRoutinesCapacity inputChannel outputChannel)
  else none

/-! ## Serializer -/

/-- Model of `strconv.Itoa` of the Go standard library: the decimal numeral of an
integer, with a leading `-` for a negative one. -/
def Itoa (n : Int) : String :=
  if n < 0 then "-" ++ Nat.repr n.natAbs else Nat.repr n.natAbs

/-- The Go function `convertToString`. -/
def convertToString (data : CsvData) : String :=
  data.BrokerInfo.UserName ++ "|" ++ Itoa data.BrokerInfo.ID ++ "|"
    ++ Itoa data.BrokerInfo.TrafficUsage ++ "|" ++ data.BrokerInfo.Ip ++ "|"
    ++ data.BrokerInfo.Port ++ "|" ++ data.Mac

/-- The columns of a line: the pieces between consecutive `|` characters
(`strings.Split(line, "|")`). -/
def splitColumns (line : String) : List String :=
  (line.data.splitOn '|').map String.mk

/-- Decimal value of a list of digit characters. -/
def digitsValue (cs : List Char) : Nat :=
  cs.foldl (fun acc c => acc * 10 + (c.toNat - 48)) 0

/-! ## Batch store -/

/-- Go `int` arithmetic: the two's-complement representative of `x` in 64 bits. -/
def wrap64 (x : Int) : Int := (x + 2 ^ 63) % 2 ^ 64 - 2 ^ 63

/-- The Go type `map[int]WritingCache`; a key that was never written reads as the
nil slice. -/
abbrev Caches := Int → WritingCache

/-- The empty map `make(map[int]WritingCache)`. -/
def emptyCaches : Caches := fun _ => []

/-- The observable actions of the writer, recorded in program order. -/
inductive Effect where
  /-- The call `WriteToFile(cache, path)`. -/
  | WriteToFile (cache : WritingCache) (path : String)
  /-- The send `out <- batch`. -/
  | Send (batch : List String)
  /-- The assignment `caches[i] = *new(WritingCache)`. -/
  | ResetSlot (i : Int)
  /-- The assignment `cache = *new(WritingCache)` to a worker's own batch. -/
  | ResetLocal
deriving DecidableEq, Repr

/-- Body of the loop `for i := 0; i < 4; i++` of `manageCaches`. -/
def flushSlot (st : Caches × List Effect) (i : Int) : Caches × List Effect :=
  if (st.1 i).length ≥ 5 then
    (Function.update st.1 i [],
      st.2 ++ [Effect.WriteToFile (st.1 i) (getPath (i + 1)), Effect.Send (st.1 i),
        Effect.ResetSlot i])
  else st

/-- The Go function `manageCaches`: the map after the call and the effects of the
call. -/
def manageCaches (caches : Caches) (dataType : Int) (data : String) :
    Caches × List Effect :=
  let key := wrap64 (dataType - 1)
  [0, 1, 2, 3].foldl flushSlot (Function.update caches key (caches key ++ [data]), [])

/-- The method `SequentialWriter.StartWriting` over the records read from the
input channel. -/
def SequentialWriter.StartWriting (input : List CsvData) : Caches × List Effect :=
  input.foldl (fun st input =>
    let res := manageCaches st.1 (getTypeData input) (convertToString input)
    (res.1, st.2 ++ res.2)) (emptyCaches, [])

/-- The loop `for converted := range middleWare` of `ConcurrentWriter.StartWriting`,
resumed in state `st`. -/
def consume (st : Caches × List Effect) (msgs : List MiddleWare) : Caches × List Effect :=
  msgs.foldl (fun st converted =>
    let res := manageCaches st.1 converted.Typ converted.Data
    (res.1, st.2 ++ res.2)) st

/-- The Go function `routineWorker` over the records read from `inp`: the final
local batch and the effects. -/
def routineWorker (number : Int) (inp : List CsvData) (cache : WritingCache) :
    WritingCache × List Effect :=
  inp.foldl (fun st input =>
    if (st.1 ++ [convertToString input]).length ≥ 5 then
      ([], st.2 ++ [Effect.WriteToFile (st.1 ++ [convertToString input]) (getPath number),
        Effect.Send (st.1 ++ [convertToString input]), Effect.ResetLocal])
    else (st.1 ++ [convertToString input], st.2)) (cache, [])

/-- The Go function `writerWorker` over the messages read from `inp`: the final
local batch and the effects. -/
def writerWorker (inp : List MiddleWare) (cache : WritingCache) :
    WritingCache × List Effect :=
  inp.foldl (fun st input =>
    if (st.1 ++ [input.Data]).length ≥ 5 then
      ([], st.2 ++ [Effect.WriteToFile (st.1 ++ [input.Data]) (getPath input.Typ),
        Effect.Send (st.1 ++ [input.Data]), Effect.ResetLocal])
    else (st.1 ++ [input.Data], st.2)) (cache, [])

/-- The router loop of `MultiGoroutinesWriter.StartWriting`: the contents sent to
the four channels, indexed 0..3; `none` is the run-time panic of the slice index
`channels[dataType-1]` when the index is out of range, which ends the loop. -/
def MultiGoroutinesWriter.route (input : List CsvData) : Option (Int → List CsvData) :=
  input.foldl (fun st input =>
    st.bind (fun channels =>
      let dataType := getTypeData input
      let idx := wrap64 (dataType - 1)
      if 0 ≤ idx ∧ idx < 4 then
        some (Function.update channels idx (channels idx ++ [input]))
      else none)) (some (fun _ => []))

/-- One iteration of a transform goroutine of `HighConcurrentWriter.StartWriting`:
the index of the queue and the message sent to it; `none` is the run-time panic
of the slice index `middleWares[dataType-1]` when the index is out of range. -/
def HighConcurrentWriter.transform (data : CsvData) : Option (Int × MiddleWare) :=
  let dataType := getTypeData data
  let idx := wrap64 (dataType - 1)
  if 0 ≤ idx ∧ idx < 4 then some (idx, { Data := convertToString data, Typ := dataType })
  else none

/-! ## Observations on traces -/

/-- The `WriteToFile` calls of a trace, as (batch, path) pairs in program order. -/
def writes (tr : List Effect) : List (WritingCache × String) :=
  tr.filterMap (fun e => match e with
    | Effect.WriteToFile b p => some (b, p)
    | _ => none)

/-- The batches sent on the output channel, in program order. -/
def sends (tr : List Effect) : List (List String) :=
  tr.filterMap (fun e => match e with
    | Effect.Send b => some b
    | _ => none)

/-- The batches written to the file `path`, in program order. -/
def batchesAt (path : String) (tr : List Effect) : List WritingCache :=
  ((writes tr).filter (fun w => w.2 = path)).map (fun w => w.1)

/-- The lines of the messages addressed to slot `k`, in arrival order. -/
def slotLines (k : Int) (msgs : List MiddleWare) : List String :=
  (msgs.filter (fun m => wrap64 (m.Typ - 1) = k)).map (fun m => m.Data)

/-- Slots 0..3 hold fewer than five lines. -/
def Below (c : Caches) : Prop := ∀ i : Int, 0 ≤ i → i ≤ 3 → (c i).length < 5

/-- Effects of one loop iteration of `manageCaches` on slot `i` of `c`. -/
def flushBlock (c : Caches) (i : Int) : List Effect :=
  if 5 ≤ (c i).length then
    [Effect.WriteToFile (c i) (getPath (i + 1)), Effect.Send (c i), Effect.ResetSlot i]
  else []

/-- The states of the map reachable from the empty map by calls of
`manageCaches`. -/
inductive Reachable : Caches → Prop where
  | empty : Reachable emptyCaches
  | call (c : Caches) (dataType : Int) (data : String) :
      Reachable c → Reachable (manageCaches c dataType data).1

/-- The common shape of the loops of `routineWorker` and `writerWorker`: append the
line of each input to the local batch and flush the batch at five lines. -/
def workerLoop {α : Type} (path : α → String) (line : α → String) (inp : List α)
    (cache : WritingCache) : WritingCache × List Effect :=
  inp.foldl (fun st input =>
    if (st.1 ++ [line input]).length ≥ 5 then
      ([], st.2 ++ [Effect.WriteToFile (st.1 ++ [line input]) (path input),
        Effect.Send (st.1 ++ [line input]), Effect.ResetLocal])
    else (st.1 ++ [line input], st.2)) (cache, [])

/-! ## Auxiliary lemmas -/

theorem digitChar_val (d : Nat) (h : d < 10) : (Nat.digitChar d).toNat - 48 = d := by
  interval_cases d <;> rfl

theorem digitChar_isDigit (d : Nat) (h : d < 10) : (Nat.digitChar d).isDigit = true := by
  interval_cases d <;> rfl

theorem toDigitsCore_value (fuel : Nat) : ∀ (n : Nat) (ds : List Char), n < fuel →
    (Nat.toDigitsCore 10 fuel n ds).foldl (fun acc c => acc * 10 + (c.toNat - 48)) 0
      = ds.foldl (fun acc c => acc * 10 + (c.toNat - 48)) n := by
  induction fuel with
  | zero => intro n ds h; omega
  | succ fuel ih =>
    intro n ds h
    unfold Nat.toDigitsCore
    simp only
    split_ifs with h0
    · have hn : n < 10 := by omega
      rw [Nat.mod_eq_of_lt hn, List.foldl_cons, digitChar_val n hn, Nat.zero_mul, Nat.zero_add]
    · have hlt : n / 10 < fuel := by omega
      rw [ih _ _ hlt]
      simp only [List.foldl_cons, digitChar_val _ (Nat.mod_lt n (by norm_num))]
      congr 1
      omega

theorem toDigitsCore_digits (fuel : Nat) : ∀ (n : Nat) (ds : List Char),
    ∀ c ∈ Nat.toDigitsCore 10 fuel n ds, c.isDigit = true ∨ c ∈ ds := by
  induction fuel with
  | zero => intro n ds c hc; right; simpa [Nat.toDigitsCore] using hc
  | succ fuel ih =>
    intro n ds c hc
    unfold Nat.toDigitsCore at hc
    simp only at hc
    split_ifs at hc with h0
    · rcases List.mem_cons.1 hc with h | h
      · left; rw [h]; exact digitChar_isDigit _ (Nat.mod_lt n (by norm_num))
      · right; exact h
    · rcases ih _ _ c hc with h | h
      · left; exact h
      · rcases List.mem_cons.1 h with h | h
        · left; rw [h]; exact digitChar_isDigit _ (Nat.mod_lt n (by norm_num))
        · right; exact h

theorem repr_value (n : Nat) : digitsValue (Nat.repr n).data = n := by
  unfold digitsValue Nat.repr Nat.toDigits
  simp only [List.asString]
  rw [toDigitsCore_value _ _ _ (Nat.lt_succ_self n)]
  simp

theorem repr_isDigit (n : Nat) : ∀ c ∈ (Nat.repr n).data, c.isDigit = true := by
  intro c hc
  unfold Nat.repr Nat.toDigits at hc
  simp only [List.asString] at hc
  rcases toDigitsCore_digits _ _ _ c hc with h | h
  · exact h
  · simp at h


theorem Itoa_no_bar (n : Int) : '|' ∉ (Itoa n).data := by
  unfold Itoa
  split_ifs
  · simp only [String.data_append, List.mem_append, not_or]
    exact ⟨by decide, fun h => by simpa using repr_isDigit _ _ h⟩
  · exact fun h => by simpa using repr_isDigit _ _ h

theorem Itoa_injective (a b : Int) (h : Itoa a = Itoa b) : a = b := by
  unfold Itoa at h
  have hd := congrArg String.data h
  split_ifs at hd with ha hb hb
  · simp only [String.data_append] at hd
    have h2 : (Nat.repr a.natAbs).data = (Nat.repr b.natAbs).data := by simpa using hd
    have h3 := congrArg digitsValue h2
    rw [repr_value, repr_value] at h3
    omega
  · exfalso
    have hm : '-' ∈ (Nat.repr b.natAbs).data := by rw [← hd]; simp
    simpa using repr_isDigit _ _ hm
  · exfalso
    have hm : '-' ∈ (Nat.repr a.natAbs).data := by rw [hd]; simp
    simpa using repr_isDigit _ _ hm
  · have h3 := congrArg digitsValue hd
    rw [repr_value, repr_value] at h3
    omega

theorem chunks_unique : ∀ (bs : List (List String)) (r L : List String),
    (∀ b ∈ bs, b.length = 5) → r.length < 5 → bs.flatten ++ r = L →
      bs.length = L.length / 5 ∧ r.length = L.length % 5
        ∧ bs.flatten = L.take (5 * (L.length / 5)) ∧ r = L.drop (5 * (L.length / 5))
        ∧ ∀ i, i < bs.length → bs[i]? = some ((L.drop (5 * i)).take 5) := by
  intro bs
  induction bs with
  | nil =>
    intro r L _ hr hL
    simp only [List.flatten_nil, List.nil_append] at hL
    subst hL
    have h0 : r.length / 5 = 0 := by omega
    refine ⟨by simp [h0], by omega, by simp [h0], by simp [h0], ?_⟩
    intro i hi
    simp at hi
  | cons b bs ih =>
    intro r L hb hr hL
    have hb5 : b.length = 5 := hb b (List.mem_cons_self _ _)
    obtain ⟨h1, h2, h3, h4, h5⟩ :=
      ih r (bs.flatten ++ r) (fun x hx => hb x (List.mem_cons_of_mem _ hx)) hr rfl
    have hL' : L = b ++ (bs.flatten ++ r) := by rw [← hL]; simp
    have hlen : L.length = 5 + (bs.flatten ++ r).length := by
      rw [hL', List.length_append, hb5]
    have hdiv : L.length / 5 = (bs.flatten ++ r).length / 5 + 1 := by omega
    have hdrop : ∀ n, L.drop (5 + n) = (bs.flatten ++ r).drop n := by
      intro n
      rw [hL', ← hb5, List.drop_append]
    have htake5 : L.take 5 = b := by
      rw [hL', ← hb5, List.take_left]
    refine ⟨by simp only [List.length_cons]; omega, by omega, ?_, ?_, ?_⟩
    · rw [hdiv, Nat.mul_add, Nat.mul_one, Nat.add_comm, List.take_add, htake5, hdrop 0,
        List.drop_zero, ← h3, List.flatten_cons]
    · rw [hdiv, Nat.mul_add, Nat.mul_one, Nat.add_comm, hdrop, ← h4]
    · intro i hi
      cases i with
      | zero => simp [htake5]
      | succ i =>
        have hi' : i < bs.length := by simpa using hi
        rw [List.getElem?_cons_succ, h5 i hi', Nat.mul_add, Nat.mul_one, Nat.add_comm, hdrop]

theorem flushSlot_eq (st : Caches × List Effect) (i : Int) :
    (flushSlot st i).2 = st.2 ++ flushBlock st.1 i
      ∧ ∀ k, (flushSlot st i).1 k = if k = i ∧ 5 ≤ (st.1 k).length then [] else st.1 k := by
  unfold flushSlot flushBlock
  by_cases h : 5 ≤ (st.1 i).length
  · simp only [ge_iff_le, h, if_true, true_and]
    intro k
    by_cases hk : k = i
    · subst hk; simp [h]
    · simp [hk]
  · simp only [ge_iff_le, h, if_false, List.append_nil, true_and]
    intro k
    by_cases hk : k = i
    · subst hk; simp [h]
    · simp [hk]

theorem foldl_flushSlot (is : List Int) : ∀ (st : Caches × List Effect), is.Nodup →
    (is.foldl flushSlot st).2 = st.2 ++ (is.map (flushBlock st.1)).flatten
      ∧ ∀ k, (is.foldl flushSlot st).1 k
          = if k ∈ is ∧ 5 ≤ (st.1 k).length then [] else st.1 k := by
  induction is with
  | nil => intro st _; simp
  | cons i rest ih =>
    intro st hnd
    obtain ⟨hi, hrest⟩ := List.nodup_cons.1 hnd
    obtain ⟨ht, hs⟩ := ih (flushSlot st i) hrest
    obtain ⟨ht1, hs1⟩ := flushSlot_eq st i
    have hsame : ∀ j ∈ rest, flushBlock (flushSlot st i).1 j = flushBlock st.1 j := by
      intro j hj
      have hji : j ≠ i := fun h => hi (h ▸ hj)
      unfold flushBlock
      rw [hs1 j]
      simp [hji]
    refine ⟨?_, ?_⟩
    · rw [List.foldl_cons, ht, ht1, List.map_congr_left hsame]
      simp
    · intro k
      rw [List.foldl_cons, hs k, hs1 k]
      by_cases hk : k = i
      · subst hk
        by_cases h5 : 5 ≤ (st.1 k).length <;> simp [hi, h5]
      · simp [hk]

theorem appendFlush_step (c : Caches) (hc : Below c) (key : Int) (s : String) :
    ([0, 1, 2, 3].foldl flushSlot (Function.update c key (c key ++ [s]), [])).2 =
        (if 0 ≤ key ∧ key ≤ 3 ∧ (c key).length = 4 then
          [Effect.WriteToFile (c key ++ [s]) (getPath (key + 1)),
            Effect.Send (c key ++ [s]), Effect.ResetSlot key]
        else [])
      ∧ ∀ k, ([0, 1, 2, 3].foldl flushSlot (Function.update c key (c key ++ [s]), [])).1 k =
        (if k = key then
          (if 0 ≤ key ∧ key ≤ 3 ∧ (c key).length = 4 then [] else c k ++ [s])
        else c k) := by
  have h0 := hc 0 (by norm_num) (by norm_num)
  have h1 := hc 1 (by norm_num) (by norm_num)
  have h2 := hc 2 (by norm_num) (by norm_num)
  have h3 := hc 3 (by norm_num) (by norm_num)
  obtain ⟨ht, hs⟩ := foldl_flushSlot [0, 1, 2, 3]
    (Function.update c key (c key ++ [s]), []) (by decide)
  have hblock : ∀ i : Int, 0 ≤ i → i ≤ 3 →
      flushBlock (Function.update c key (c key ++ [s])) i
        = if i = key ∧ (c key).length = 4 then
            [Effect.WriteToFile (c key ++ [s]) (getPath (key + 1)),
              Effect.Send (c key ++ [s]), Effect.ResetSlot key]
          else [] := by
    intro i hi0 hi3
    have hci := hc i hi0 hi3
    unfold flushBlock
    by_cases hik : i = key
    · subst hik
      by_cases h4 : (c i).length = 4
      · simp [h4]
      · have : ¬ 5 ≤ (c i).length + 1 := by omega
        simp [h4, this]
    · have : ¬ 5 ≤ (c i).length := by omega
      simp [hik, this]
  refine ⟨?_, ?_⟩
  · rw [ht]
    simp only [List.map_cons, List.map_nil, List.flatten_cons, List.flatten_nil,
      List.nil_append, List.append_nil]
    rw [hblock 0 (by norm_num) (by norm_num), hblock 1 (by norm_num) (by norm_num),
      hblock 2 (by norm_num) (by norm_num), hblock 3 (by norm_num) (by norm_num)]
    by_cases hfull : 0 ≤ key ∧ key ≤ 3 ∧ (c key).length = 4
    · rw [if_pos hfull]
      obtain ⟨hk0, hk3, hlen⟩ := hfull
      have hkey : key = 0 ∨ key = 1 ∨ key = 2 ∨ key = 3 := by omega
      rcases hkey with h | h | h | h <;> subst h <;> simp [hlen]
    · rw [if_neg hfull]
      have e0 : ¬ ((0 : Int) = key ∧ (c key).length = 4) := by
        rintro ⟨h, hl⟩; subst h; exact hfull ⟨by norm_num, by norm_num, hl⟩
      have e1 : ¬ ((1 : Int) = key ∧ (c key).length = 4) := by
        rintro ⟨h, hl⟩; subst h; exact hfull ⟨by norm_num, by norm_num, hl⟩
      have e2 : ¬ ((2 : Int) = key ∧ (c key).length = 4) := by
        rintro ⟨h, hl⟩; subst h; exact hfull ⟨by norm_num, by norm_num, hl⟩
      have e3 : ¬ ((3 : Int) = key ∧ (c key).length = 4) := by
        rintro ⟨h, hl⟩; subst h; exact hfull ⟨by norm_num, by norm_num, hl⟩
      simp [e0, e1, e2, e3]
  · intro k
    rw [hs k]
    simp only
    by_cases hk : k = key
    · subst hk
      simp only [Function.update_same, if_true, List.length_append, List.length_singleton]
      by_cases hfull : 0 ≤ k ∧ k ≤ 3 ∧ (c k).length = 4
      · rw [if_pos hfull]
        obtain ⟨hk0, hk3, hlen⟩ := hfull
        have hkey : k = 0 ∨ k = 1 ∨ k = 2 ∨ k = 3 := by omega
        rw [if_pos]
        exact ⟨by rcases hkey with h | h | h | h <;> simp [h], by omega⟩
      · rw [if_neg hfull, if_neg]
        rintro ⟨hmem, hlen⟩
        have hkey : k = 0 ∨ k = 1 ∨ k = 2 ∨ k = 3 := by simpa using hmem
        have := hc k (by omega) (by omega)
        exact hfull ⟨by omega, by omega, by omega⟩
    · rw [if_neg hk, Function.update_noteq hk, if_neg]
      rintro ⟨hmem, hlen⟩
      have hkey : k = 0 ∨ k = 1 ∨ k = 2 ∨ k = 3 := by simpa using hmem
      have := hc k (by omega) (by omega)
      omega

theorem writes_append (a b : List Effect) : writes (a ++ b) = writes a ++ writes b := by
  simp [writes, List.filterMap_append]

theorem sends_append (a b : List Effect) : sends (a ++ b) = sends a ++ sends b := by
  simp [sends, List.filterMap_append]

theorem batchesAt_append (p : String) (a b : List Effect) :
    batchesAt p (a ++ b) = batchesAt p a ++ batchesAt p b := by
  simp [batchesAt, writes_append, List.filter_append]

theorem getPath_slot_inj (i k : Int) (hi0 : 0 ≤ i) (hi3 : i ≤ 3) (hk0 : 0 ≤ k) (hk3 : k ≤ 3)
    (h : getPath (i + 1) = getPath (k + 1)) : i = k := by
  have hi : i = 0 ∨ i = 1 ∨ i = 2 ∨ i = 3 := by omega
  have hk : k = 0 ∨ k = 1 ∨ k = 2 ∨ k = 3 := by omega
  rcases hi with hi | hi | hi | hi <;> rcases hk with hk | hk | hk | hk <;> subst hi <;>
    subst hk <;> first | rfl | (exfalso; revert h; decide)

theorem consume_snoc (st : Caches × List Effect) (msgs : List MiddleWare) (m : MiddleWare) :
    consume st (msgs ++ [m]) =
      ((manageCaches (consume st msgs).1 m.Typ m.Data).1,
        (consume st msgs).2 ++ (manageCaches (consume st msgs).1 m.Typ m.Data).2) := by
  simp [consume, List.foldl_append]

theorem slotLines_snoc (k : Int) (msgs : List MiddleWare) (m : MiddleWare) :
    slotLines k (msgs ++ [m])
      = slotLines k msgs ++ (if wrap64 (m.Typ - 1) = k then [m.Data] else []) := by
  unfold slotLines
  by_cases h : wrap64 (m.Typ - 1) = k <;> simp [List.filter_append, h]

/-- Invariant of the batch store along a run from the empty map. -/
theorem consume_invariant (msgs : List MiddleWare) :
    Below (consume (emptyCaches, []) msgs).1
      ∧ sends (consume (emptyCaches, []) msgs).2
          = (writes (consume (emptyCaches, []) msgs).2).map (fun w => w.1)
      ∧ (∀ w ∈ writes (consume (emptyCaches, []) msgs).2,
          ∃ i : Int, 0 ≤ i ∧ i ≤ 3 ∧ w.2 = getPath (i + 1))
      ∧ ∀ k : Int, 0 ≤ k → k ≤ 3 →
          (batchesAt (getPath (k + 1)) (consume (emptyCaches, []) msgs).2).flatten
              ++ (consume (emptyCaches, []) msgs).1 k = slotLines k msgs
            ∧ ∀ b ∈ batchesAt (getPath (k + 1)) (consume (emptyCaches, []) msgs).2,
                b.length = 5 := by
  induction msgs using List.reverseRecOn with
  | nil =>
    refine ⟨fun i _ _ => by simp [consume, emptyCaches], by simp [consume, sends, writes],
      by simp [consume, writes], fun k _ _ => ?_⟩
    simp [consume, emptyCaches, batchesAt, writes, slotLines]
  | append_singleton msgs m ih =>
    obtain ⟨hB, hS, hW, hK⟩ := ih
    obtain ⟨ht, hs⟩ := appendFlush_step (consume (emptyCaches, []) msgs).1 hB
      (wrap64 (m.Typ - 1)) m.Data
    rw [consume_snoc]
    simp only [manageCaches]
    generalize hkey : wrap64 (m.Typ - 1) = key at ht hs
    generalize hst : consume (emptyCaches, []) msgs = st at hB hS hW hK ht hs
    rw [ht]
    by_cases hfull : 0 ≤ key ∧ key ≤ 3 ∧ (st.1 key).length = 4
    · simp only [hfull, and_self, if_true] at hs ⊢
      obtain ⟨hk0, hk3, hlen⟩ := hfull
      refine ⟨?_, ?_, ?_, ?_⟩
      · intro i hi0 hi3
        rw [hs i]
        by_cases hik : i = key
        · simp [hik]
        · simp [hik]; exact hB i hi0 hi3
      · rw [sends_append, writes_append, List.map_append, hS]
        simp [sends, writes]
      · intro w hw
        rw [writes_append] at hw
        rcases List.mem_append.1 hw with h | h
        · exact hW w h
        · simp [writes] at h
          exact ⟨key, hk0, hk3, by rw [h]⟩
      · intro k hk0' hk3'
        obtain ⟨hc1, hc2⟩ := hK k hk0' hk3'
        rw [batchesAt_append, slotLines_snoc, hkey, hs k]
        by_cases hik : k = key
        · subst hik
          have hb : batchesAt (getPath (k + 1))
              [Effect.WriteToFile (st.1 k ++ [m.Data]) (getPath (k + 1)),
                Effect.Send (st.1 k ++ [m.Data]), Effect.ResetSlot k]
              = [st.1 k ++ [m.Data]] := by
            simp [batchesAt, writes]
          rw [hb]
          refine ⟨?_, ?_⟩
          · simp only [if_true, List.flatten_append, List.flatten_cons, List.flatten_nil,
              List.append_nil, ← hc1, List.append_assoc]
          · intro b hb'
            rcases List.mem_append.1 hb' with h | h
            · exact hc2 b h
            · simp at h; rw [h]; simp [hlen]
        · have hne : getPath (key + 1) ≠ getPath (k + 1) := fun h =>
            hik (getPath_slot_inj key k hk0 hk3 hk0' hk3' h).symm
          have hb : batchesAt (getPath (k + 1))
              [Effect.WriteToFile (st.1 key ++ [m.Data]) (getPath (key + 1)),
                Effect.Send (st.1 key ++ [m.Data]), Effect.ResetSlot key]
              = [] := by
            simp [batchesAt, writes, hne]
          rw [hb]
          have hki : ¬ key = k := fun h => hik h.symm
          simp only [hik, hki, if_false, List.append_nil]
          exact ⟨hc1, hc2⟩
    · simp only [hfull, if_false, List.append_nil] at hs ⊢
      refine ⟨?_, hS, hW, ?_⟩
      · intro i hi0 hi3
        rw [hs i]
        have := hB i hi0 hi3
        by_cases hik : i = key
        · subst hik
          simp only [if_true, List.length_append, List.length_singleton]
          by_contra hcon
          exact hfull ⟨hi0, hi3, by omega⟩
        · simp [hik]; exact this
      · intro k hk0' hk3'
        obtain ⟨hc1, hc2⟩ := hK k hk0' hk3'
        refine ⟨?_, hc2⟩
        rw [slotLines_snoc, hkey, hs k]
        by_cases hik : k = key
        · subst hik
          simp only [if_true, ← hc1, List.append_assoc]
        · have hki : ¬ key = k := fun h => hik h.symm
          simp only [hik, hki, if_false, List.append_nil]
          exact hc1

/-! ## Theorems -/

/-- C1: `getTypeData` follows the range table on the usage value alone: 1 on
[0,100], 2 on [101,500], 3 on [501,1000], 4 on [1001,1500] and the sentinel 0 on
every other integer; two records with the same usage classify alike. -/
theorem getTypeData_table (data : CsvData) :
    getTypeData data =
        (if 0 ≤ data.BrokerInfo.TrafficUsage ∧ data.BrokerInfo.TrafficUsage ≤ 100 then 1
         else if 101 ≤ data.BrokerInfo.TrafficUsage ∧ data.BrokerInfo.TrafficUsage ≤ 500 then 2
         else if 501 ≤ data.BrokerInfo.TrafficUsage ∧ data.BrokerInfo.TrafficUsage ≤ 1000 then 3
         else if 1001 ≤ data.BrokerInfo.TrafficUsage ∧ data.BrokerInfo.TrafficUsage ≤ 1500 then 4
         else 0)
      ∧ (getTypeData data = 0 ↔
          data.BrokerInfo.TrafficUsage < 0 ∨ 1501 ≤ data.BrokerInfo.TrafficUsage)
      ∧ (∀ other : CsvData,
          other.BrokerInfo.TrafficUsage = data.BrokerInfo.TrafficUsage →
            getTypeData other = getTypeData data)
      ∧ (List.map (fun u => getTypeData ⟨⟨"", 0, u, "", ""⟩, ""⟩)
            [0, 100, 101, 500, 501, 1000, 1001, 1500, 1501]
          = [1, 1, 2, 2, 3, 3, 4, 4, 0]) := by
  refine ⟨?_, ?_, ?_, by decide⟩
  · simp only [getTypeData, ge_iff_le]
  · unfold getTypeData
    split_ifs <;> omega
  · intro other h
    simp only [getTypeData, h]

/-- C4: `GetNewWriter` returns nil exactly for the capacities 6, 7, 8 and the
negative ones; it returns the Sequential writer for 0, the Pooled-Transform
writer with capacity `c` for 1..4, the Partitioned writer for 5 and the Hybrid
writer with capacity `c` from 9 on, each holding the two given channels. -/
theorem GetNewWriter_selection {I O : Type} (c : Int) (inp : I) (out : O) :
    (GetNewWriter c inp out = none ↔ (c = 6 ∨ c = 7 ∨ c = 8 ∨ c < 0))
      ∧ (c = 0 → GetNewWriter c inp out = some (.SequentialWriter inp out))
      ∧ (1 ≤ c ∧ c ≤ 4 → GetNewWriter c inp out = some (.ConcurrentWriter c inp out))
      ∧ (c = 5 → GetNewWriter c inp out = some (.MultiGoroutinesWriter inp out))
      ∧ (9 ≤ c → GetNewWriter c inp out = some (.HighConcurrentWriter c inp out)) := by
  unfold GetNewWriter
  refine ⟨?_, ?_, ?_, ?_, ?_⟩
  · split_ifs <;> simp <;> omega
  · intro h; simp [h]
  · intro h
    have h0 : c ≠ 0 := by omega
    have h1 : c > 0 ∧ c < 5 := by omega
    simp [h0, h1]
  · intro h; subst h; simp
  · intro h
    have h0 : c ≠ 0 := by omega
    have h1 : ¬ (c > 0 ∧ c < 5) := by omega
    have h2 : c ≠ 5 := by omega
    simp [h0, h1, h2, h]

theorem convertToString_data (data : CsvData) :
    (convertToString data).data = [ '|' ].intercalate
      [data.BrokerInfo.UserName.data, (Itoa data.BrokerInfo.ID).data,
        (Itoa data.BrokerInfo.TrafficUsage).data, data.BrokerInfo.Ip.data,
        data.BrokerInfo.Port.data, data.Mac.data] := by
  simp [convertToString, List.intercalate, String.data_append]

theorem splitColumns_convertToString (data : CsvData)
    (hUser : '|' ∉ data.BrokerInfo.UserName.data) (hIp : '|' ∉ data.BrokerInfo.Ip.data)
    (hPort : '|' ∉ data.BrokerInfo.Port.data) (hMac : '|' ∉ data.Mac.data) :
    splitColumns (convertToString data)
      = [data.BrokerInfo.UserName, Itoa data.BrokerInfo.ID,
          Itoa data.BrokerInfo.TrafficUsage, data.BrokerInfo.Ip, data.BrokerInfo.Port,
          data.Mac] := by
  unfold splitColumns
  rw [convertToString_data, List.splitOn_intercalate]
  · rfl
  · intro l hl
    simp only [List.mem_cons, List.mem_singleton, List.not_mem_nil, or_false] at hl
    rcases hl with h | h | h | h | h | h <;> subst h
    · exact hUser
    · exact Itoa_no_bar _
    · exact Itoa_no_bar _
    · exact hIp
    · exact hPort
    · exact hMac
  · simp

/-- C5: on a record whose `UserName`, `Ip`, `Port` and `Mac` contain no `|`, the
line produced by `convertToString` splits on `|` into exactly the six columns
UserName, decimal ID, decimal TrafficUsage, Ip, Port, Mac, in this order; hence
two such records with the same line are equal. -/
theorem convertToString_columns (data : CsvData)
    (hUser : '|' ∉ data.BrokerInfo.UserName.data) (hIp : '|' ∉ data.BrokerInfo.Ip.data)
    (hPort : '|' ∉ data.BrokerInfo.Port.data) (hMac : '|' ∉ data.Mac.data) :
    splitColumns (convertToString data)
        = [data.BrokerInfo.UserName, Itoa data.BrokerInfo.ID,
            Itoa data.BrokerInfo.TrafficUsage, data.BrokerInfo.Ip, data.BrokerInfo.Port,
            data.Mac]
      ∧ (splitColumns (convertToString data)).length = 6
      ∧ ∀ other : CsvData,
          '|' ∉ other.BrokerInfo.UserName.data → '|' ∉ other.BrokerInfo.Ip.data →
          '|' ∉ other.BrokerInfo.Port.data → '|' ∉ other.Mac.data →
          convertToString other = convertToString data → other = data := by
  have hsplit := splitColumns_convertToString data hUser hIp hPort hMac
  refine ⟨hsplit, by rw [hsplit]; rfl, ?_⟩
  intro other oUser oIp oPort oMac heq
  have hother := splitColumns_convertToString other oUser oIp oPort oMac
  rw [heq, hsplit] at hother
  simp only [List.cons.injEq, and_true] at hother
  obtain ⟨h1, h2, h3, h4, h5, h6⟩ := hother
  have hid := Itoa_injective _ _ h2
  have hus := Itoa_injective _ _ h3
  obtain ⟨⟨u, i, t, ip, p⟩, m⟩ := data
  obtain ⟨⟨u', i', t', ip', p'⟩, m'⟩ := other
  simp only at h1 h4 h5 h6 hid hus
  subst h1 h4 h5 h6 hid hus
  rfl

/-- Witness for C5: a record without `|` in its string fields. -/
theorem convertToString_columns_witness :
    splitColumns (convertToString ⟨⟨"alice", 7, 50, "10.0.0.1", "8080"⟩, "aa:bb"⟩)
        = ["alice", "7", "50", "10.0.0.1", "8080", "aa:bb"] :=
  (convertToString_columns ⟨⟨"alice", 7, 50, "10.0.0.1", "8080"⟩, "aa:bb"⟩
    (by decide) (by decide) (by decide) (by decide)).1

/-! ### The Sequential variant -/

/-- The Sequential variant is the consumer loop run over the messages
(`convertToString`, `getTypeData`) of the records. -/
theorem sequential_eq_consume (input : List CsvData) :
    SequentialWriter.StartWriting input
      = consume (emptyCaches, [])
          (input.map (fun r => { Data := convertToString r, Typ := getTypeData r })) := by
  simp [SequentialWriter.StartWriting, consume, List.foldl_map]

theorem getTypeData_cases (data : CsvData) :
    getTypeData data = 0 ∨ getTypeData data = 1 ∨ getTypeData data = 2
      ∨ getTypeData data = 3 ∨ getTypeData data = 4 := by
  unfold getTypeData
  split_ifs <;> simp

theorem wrap64_getTypeData (data : CsvData) :
    wrap64 (getTypeData data - 1) = getTypeData data - 1 := by
  rcases getTypeData_cases data with h | h | h | h | h <;> rw [h] <;> decide

theorem slotLines_records (k : Int) (input : List CsvData) :
    slotLines (k - 1)
        (input.map (fun r => { Data := convertToString r, Typ := getTypeData r }))
      = (input.filter (fun r => getTypeData r = k)).map convertToString := by
  unfold slotLines
  rw [List.filter_map, List.map_map]
  have hf : List.filter ((fun m : MiddleWare => decide (wrap64 (m.Typ - 1) = k - 1))
        ∘ (fun r => { Data := convertToString r, Typ := getTypeData r })) input
      = List.filter (fun r => decide (getTypeData r = k)) input := by
    apply List.filter_congr
    intro r _
    simp only [Function.comp, wrap64_getTypeData]
    exact decide_eq_decide.2 ⟨fun h => by omega, fun h => by omega⟩
  rw [hf]
  rfl

/-- The batches written to partition `k`'s file and its remaining batch cut the
lines of `k`'s records into consecutive groups of five. -/
theorem sequential_slot (input : List CsvData) (k : Int) (hk1 : 1 ≤ k) (hk4 : k ≤ 4) :
    (∀ b ∈ batchesAt (getPath k) (SequentialWriter.StartWriting input).2, b.length = 5)
      ∧ ((SequentialWriter.StartWriting input).1 (k - 1)).length < 5
      ∧ (batchesAt (getPath k) (SequentialWriter.StartWriting input).2).flatten
            ++ (SequentialWriter.StartWriting input).1 (k - 1)
          = (input.filter (fun r => getTypeData r = k)).map convertToString := by
  rw [sequential_eq_consume]
  obtain ⟨hB, _, _, hK⟩ := consume_invariant
    (input.map (fun r => { Data := convertToString r, Typ := getTypeData r }))
  obtain ⟨h1, h2⟩ := hK (k - 1) (by omega) (by omega)
  rw [sub_add_cancel, slotLines_records] at h1
  rw [sub_add_cancel] at h2
  exact ⟨h2, hB (k - 1) (by omega) (by omega), h1⟩

/-- The cut of `k`'s lines made by the Sequential variant, by position. -/
theorem sequential_chunks (input : List CsvData) (k : Int) (hk1 : 1 ≤ k) (hk4 : k ≤ 4) :
    (batchesAt (getPath k) (SequentialWriter.StartWriting input).2).length
        = (input.filter (fun r => getTypeData r = k)).length / 5
      ∧ ((SequentialWriter.StartWriting input).1 (k - 1)).length
          = (input.filter (fun r => getTypeData r = k)).length % 5
      ∧ (batchesAt (getPath k) (SequentialWriter.StartWriting input).2).flatten
          = ((input.filter (fun r => getTypeData r = k)).map convertToString).take
              (5 * ((input.filter (fun r => getTypeData r = k)).length / 5))
      ∧ (SequentialWriter.StartWriting input).1 (k - 1)
          = ((input.filter (fun r => getTypeData r = k)).map convertToString).drop
              (5 * ((input.filter (fun r => getTypeData r = k)).length / 5))
      ∧ ∀ i, i < (input.filter (fun r => getTypeData r = k)).length / 5 →
          (batchesAt (getPath k) (SequentialWriter.StartWriting input).2)[i]?
            = some ((((input.filter (fun r => getTypeData r = k)).map
                convertToString).drop (5 * i)).take 5) := by
  obtain ⟨h5, hr, hcat⟩ := sequential_slot input k hk1 hk4
  obtain ⟨c1, c2, c3, c4, c5⟩ := chunks_unique _ _ _ h5 hr hcat
  rw [List.length_map] at c1 c2 c3 c4
  exact ⟨c1, c2, c3, c4, fun i hi => c5 i (by rw [c1]; exact hi)⟩

/-- The batches sent by the Sequential variant are the written ones, in order. -/
theorem sequential_sends (input : List CsvData) :
    sends (SequentialWriter.StartWriting input).2
      = (writes (SequentialWriter.StartWriting input).2).map (fun w => w.1) := by
  rw [sequential_eq_consume]
  exact (consume_invariant _).2.1

/-- C2: in the Sequential variant, for a partition `k` in 1..4 to which `N_k`
records of the input classify, exactly `N_k / 5` batches are written to `k`'s
file, each has exactly 5 lines, the `i`-th of them is lines `5i .. 5i+4` of the
serialized lines of `k`'s records in arrival order, and the batches sent on the
output channel are exactly the written ones. -/
theorem sequential_flush_count (input : List CsvData) (k : Int) (hk1 : 1 ≤ k) (hk4 : k ≤ 4) :
    (batchesAt (getPath k) (SequentialWriter.StartWriting input).2).length
        = (input.filter (fun r => getTypeData r = k)).length / 5
      ∧ (∀ b ∈ batchesAt (getPath k) (SequentialWriter.StartWriting input).2, b.length = 5)
      ∧ (∀ i, i < (input.filter (fun r => getTypeData r = k)).length / 5 →
          (batchesAt (getPath k) (SequentialWriter.StartWriting input).2)[i]?
            = some ((((input.filter (fun r => getTypeData r = k)).map
                convertToString).drop (5 * i)).take 5))
      ∧ sends (SequentialWriter.StartWriting input).2
          = (writes (SequentialWriter.StartWriting input).2).map (fun w => w.1) := by
  obtain ⟨h5, _, _⟩ := sequential_slot input k hk1 hk4
  obtain ⟨c1, _, _, _, c5⟩ := sequential_chunks input k hk1 hk4
  exact ⟨c1, h5, c5, sequential_sends input⟩

/-- Witness for C2: six records of usage 50 give one batch for partition 1. -/
theorem sequential_flush_count_witness :
    (batchesAt (getPath 1) (SequentialWriter.StartWriting
        (List.replicate 6 ⟨⟨"u", 1, 50, "ip", "p"⟩, "m"⟩)).2).length = 1 :=
  (sequential_flush_count (List.replicate 6 ⟨⟨"u", 1, 50, "ip", "p"⟩, "m"⟩) 1
    (by decide) (by decide)).1.trans (by decide)

theorem sequential_written (input : List CsvData) (k : Int) (hk1 : 1 ≤ k) (hk4 : k ≤ 4)
    (p : CsvData → Bool) (hp : ∀ r, p r = decide (getTypeData r = k)) :
    (batchesAt (getPath k) (SequentialWriter.StartWriting input).2).flatten
      = ((input.filter p).map convertToString).take (5 * ((input.filter p).length / 5)) := by
  have hfun : p = fun r => decide (getTypeData r = k) := funext hp
  rw [hfun]
  exact (sequential_chunks input k hk1 hk4).2.2.1

/-- C6: in the Sequential variant every `WriteToFile` goes to one of the four
partition files, and the lines written to the file `0_100` are, in arrival
order, the serialized lines of the first `5 * (N / 5)` records with usage in
[0,100]; likewise `101_500` for [101,500], `501_1000` for [501,1000] and
`1001_1500` for [1001,1500]. -/
theorem sequential_file_contents (input : List CsvData) :
    (∀ w ∈ writes (SequentialWriter.StartWriting input).2,
        ∃ k : Int, 1 ≤ k ∧ k ≤ 4 ∧ w.2 = getPath k
          ∧ w.2 ∈ ["output/0_100.csv", "output/101_500.csv", "output/501_1000.csv",
              "output/1001_1500.csv"])
      ∧ (batchesAt "output/0_100.csv" (SequentialWriter.StartWriting input).2).flatten
          = ((input.filter (fun r =>
                0 ≤ r.BrokerInfo.TrafficUsage ∧ r.BrokerInfo.TrafficUsage ≤ 100)).map
              convertToString).take
            (5 * ((input.filter (fun r =>
                0 ≤ r.BrokerInfo.TrafficUsage ∧ r.BrokerInfo.TrafficUsage ≤ 100)).length / 5))
      ∧ (batchesAt "output/101_500.csv" (SequentialWriter.StartWriting input).2).flatten
          = ((input.filter (fun r =>
                101 ≤ r.BrokerInfo.TrafficUsage ∧ r.BrokerInfo.TrafficUsage ≤ 500)).map
              convertToString).take
            (5 * ((input.filter (fun r =>
                101 ≤ r.BrokerInfo.TrafficUsage ∧ r.BrokerInfo.TrafficUsage ≤ 500)).length / 5))
      ∧ (batchesAt "output/501_1000.csv" (SequentialWriter.StartWriting input).2).flatten
          = ((input.filter (fun r =>
                501 ≤ r.BrokerInfo.TrafficUsage ∧ r.BrokerInfo.TrafficUsage ≤ 1000)).map
              convertToString).take
            (5 * ((input.filter (fun r =>
                501 ≤ r.BrokerInfo.TrafficUsage ∧ r.BrokerInfo.TrafficUsage ≤ 1000)).length / 5))
      ∧ (batchesAt "output/1001_1500.csv" (SequentialWriter.StartWriting input).2).flatten
          = ((input.filter (fun r =>
                1001 ≤ r.BrokerInfo.TrafficUsage ∧ r.BrokerInfo.TrafficUsage ≤ 1500)).map
              convertToString).take
            (5 * ((input.filter (fun r =>
                1001 ≤ r.BrokerInfo.TrafficUsage ∧ r.BrokerInfo.TrafficUsage ≤ 1500)).length / 5))
      := by
  have hclass : ∀ (r : CsvData) (k lo hi : Int),
      (getTypeData r = k ↔ lo ≤ r.BrokerInfo.TrafficUsage ∧ r.BrokerInfo.TrafficUsage ≤ hi) →
        decide (lo ≤ r.BrokerInfo.TrafficUsage ∧ r.BrokerInfo.TrafficUsage ≤ hi)
          = decide (getTypeData r = k) :=
    fun r k lo hi h => decide_eq_decide.2 h.symm
  refine ⟨?_, ?_, ?_, ?_, ?_⟩
  · intro w hw
    rw [sequential_eq_consume] at hw
    obtain ⟨i, hi0, hi3, hpath⟩ := (consume_invariant _).2.2.1 w hw
    refine ⟨i + 1, by omega, by omega, hpath, ?_⟩
    have hi : i = 0 ∨ i = 1 ∨ i = 2 ∨ i = 3 := by omega
    rw [hpath]
    rcases hi with h | h | h | h <;> subst h <;> decide
  · exact sequential_written input 1 (by decide) (by decide) _ (fun r =>
      hclass r 1 0 100 (by unfold getTypeData; split_ifs <;> omega))
  · exact sequential_written input 2 (by decide) (by decide) _ (fun r =>
      hclass r 2 101 500 (by unfold getTypeData; split_ifs <;> omega))
  · exact sequential_written input 3 (by decide) (by decide) _ (fun r =>
      hclass r 3 501 1000 (by unfold getTypeData; split_ifs <;> omega))
  · exact sequential_written input 4 (by decide) (by decide) _ (fun r =>
      hclass r 4 1001 1500 (by unfold getTypeData; split_ifs <;> omega))

/-! ### Flush blocks -/

theorem workerLoop_snoc {α : Type} (path : α → String) (line : α → String) (inp : List α)
    (x : α) (cache : WritingCache) :
    workerLoop path line (inp ++ [x]) cache =
      if ((workerLoop path line inp cache).1 ++ [line x]).length ≥ 5 then
        ([], (workerLoop path line inp cache).2
          ++ [Effect.WriteToFile ((workerLoop path line inp cache).1 ++ [line x]) (path x),
            Effect.Send ((workerLoop path line inp cache).1 ++ [line x]), Effect.ResetLocal])
      else ((workerLoop path line inp cache).1 ++ [line x], (workerLoop path line inp cache).2)
    := by
  simp [workerLoop, List.foldl_append]

theorem routineWorker_eq (number : Int) (inp : List CsvData) (cache : WritingCache) :
    routineWorker number inp cache
      = workerLoop (fun _ => getPath number) convertToString inp cache := rfl

theorem writerWorker_eq (inp : List MiddleWare) (cache : WritingCache) :
    writerWorker inp cache
      = workerLoop (fun m => getPath m.Typ) (fun m => m.Data) inp cache := rfl

theorem reachable_below (c : Caches) (hc : Reachable c) : Below c := by
  induction hc with
  | empty => intro i _ _; simp [emptyCaches]
  | call c d s _ ih =>
    obtain ⟨_, hs⟩ := appendFlush_step c ih (wrap64 (d - 1)) s
    intro i hi0 hi3
    unfold manageCaches
    simp only
    rw [hs i]
    have := ih i hi0 hi3
    by_cases hik : i = wrap64 (d - 1)
    · rw [if_pos hik]
      split_ifs with hfull
      · simp
      · rw [List.length_append, List.length_singleton]
        by_contra hcon
        exact hfull ⟨hik ▸ hi0, hik ▸ hi3, by rw [← hik]; omega⟩
    · rw [if_neg hik]; exact this

/-- The effects of a call and the slots other than `-1` do not depend on slot `-1`. -/
theorem manageCaches_agree (c1 c2 : Caches) (h : ∀ k, k ≠ -1 → c1 k = c2 k) (d : Int)
    (s : String) :
    (manageCaches c1 d s).2 = (manageCaches c2 d s).2
      ∧ ∀ k, k ≠ -1 → (manageCaches c1 d s).1 k = (manageCaches c2 d s).1 k := by
  unfold manageCaches
  simp only
  generalize wrap64 (d - 1) = key
  obtain ⟨ht1, hs1⟩ := foldl_flushSlot [0, 1, 2, 3]
    (Function.update c1 key (c1 key ++ [s]), []) (by decide)
  obtain ⟨ht2, hs2⟩ := foldl_flushSlot [0, 1, 2, 3]
    (Function.update c2 key (c2 key ++ [s]), []) (by decide)
  have hupd : ∀ k, k ≠ -1 →
      Function.update c1 key (c1 key ++ [s]) k = Function.update c2 key (c2 key ++ [s]) k := by
    intro k hk
    by_cases hkk : k = key
    · subst hkk; simp [h k hk]
    · simp [Function.update_noteq hkk, h k hk]
  have hblk : ∀ i : Int, i ≠ -1 →
      flushBlock (Function.update c1 key (c1 key ++ [s])) i
        = flushBlock (Function.update c2 key (c2 key ++ [s])) i := by
    intro i hi
    unfold flushBlock
    rw [hupd i hi]
  refine ⟨?_, ?_⟩
  · rw [ht1, ht2]
    simp only [List.map_cons, List.map_nil]
    rw [hblk 0 (by decide), hblk 1 (by decide), hblk 2 (by decide), hblk 3 (by decide)]
  · intro k hk
    rw [hs1 k, hs2 k]
    simp only
    rw [hupd k hk]

theorem manageCaches_slot_neg (c : Caches) (d : Int) (s : String) :
    (manageCaches c d s).1 (-1) = if wrap64 (d - 1) = -1 then c (-1) ++ [s] else c (-1) := by
  unfold manageCaches
  simp only
  generalize wrap64 (d - 1) = key
  obtain ⟨_, hs⟩ := foldl_flushSlot [0, 1, 2, 3]
    (Function.update c key (c key ++ [s]), []) (by decide)
  rw [hs (-1)]
  have hmem : ¬ ((-1 : Int) ∈ [(0 : Int), 1, 2, 3]) := by decide
  simp only [hmem, false_and, if_false]
  by_cases hk : key = -1
  · subst hk; simp
  · have hk' : (-1 : Int) ≠ key := fun h => hk h.symm
    rw [Function.update_noteq hk', if_neg hk]

theorem consume_cons (st : Caches × List Effect) (m : MiddleWare) (msgs : List MiddleWare) :
    consume st (m :: msgs)
      = consume ((manageCaches st.1 m.Typ m.Data).1, st.2 ++ (manageCaches st.1 m.Typ m.Data).2)
          msgs := by
  simp [consume]

theorem consume_agree (msgs : List MiddleWare) : ∀ (st1 st2 : Caches × List Effect),
    (∀ k, k ≠ -1 → st1.1 k = st2.1 k) → st1.2 = st2.2 →
      (consume st1 msgs).2 = (consume st2 msgs).2
        ∧ ∀ k, k ≠ -1 → (consume st1 msgs).1 k = (consume st2 msgs).1 k := by
  induction msgs with
  | nil => intro st1 st2 h1 h2; exact ⟨h2, h1⟩
  | cons m msgs ih =>
    intro st1 st2 h1 h2
    rw [consume_cons, consume_cons]
    obtain ⟨ht, hs⟩ := manageCaches_agree st1.1 st2.1 h1 m.Typ m.Data
    exact ih _ _ hs (by simp only [ht, h2])

theorem consume_slot_neg (msgs : List MiddleWare) : ∀ (st : Caches × List Effect),
    ∃ rest, (consume st msgs).1 (-1) = st.1 (-1) ++ rest := by
  induction msgs with
  | nil => intro st; exact ⟨[], by simp [consume]⟩
  | cons m msgs ih =>
    intro st
    rw [consume_cons]
    obtain ⟨rest, hrest⟩ :=
      ih ((manageCaches st.1 m.Typ m.Data).1, st.2 ++ (manageCaches st.1 m.Typ m.Data).2)
    rw [hrest]
    simp only
    rw [manageCaches_slot_neg]
    split_ifs
    · exact ⟨m.Data :: rest, by simp⟩
    · exact ⟨rest, rfl⟩

/-- C9: in a state of the map reachable from the empty map by `manageCaches`
calls, processing a record whose usage lies outside [0,1500] writes no file and
sends nothing, leaves every slot but `-1` unchanged (in particular those of
partitions 1..4) and appends the record's line to slot `-1`; whatever is
processed later, the effects and the slots of partitions 1..4 are the same as if
the record had not been processed, and the line stays in slot `-1`, which is
never flushed. -/
theorem unclassified_vanishes (c : Caches) (hc : Reachable c) (r : CsvData)
    (hu : r.BrokerInfo.TrafficUsage < 0 ∨ 1500 < r.BrokerInfo.TrafficUsage) :
    getTypeData r = 0
      ∧ (manageCaches c (getTypeData r) (convertToString r)).2 = []
      ∧ (∀ k, k ≠ -1 → (manageCaches c (getTypeData r) (convertToString r)).1 k = c k)
      ∧ (manageCaches c (getTypeData r) (convertToString r)).1 (-1)
          = c (-1) ++ [convertToString r]
      ∧ ∀ later : List MiddleWare,
          (consume ((manageCaches c (getTypeData r) (convertToString r)).1, []) later).2
              = (consume (c, []) later).2
            ∧ (∀ k, k ≠ -1 →
                (consume ((manageCaches c (getTypeData r) (convertToString r)).1, []) later).1 k
                  = (consume (c, []) later).1 k)
            ∧ ∃ rest,
              (consume ((manageCaches c (getTypeData r) (convertToString r)).1, []) later).1 (-1)
                = c (-1) ++ convertToString r :: rest := by
  have h0 : getTypeData r = 0 := by
    unfold getTypeData; split_ifs <;> omega
  have hkey : wrap64 (getTypeData r - 1) = -1 := by rw [h0]; decide
  obtain ⟨ht, hs⟩ := appendFlush_step c (reachable_below c hc) (wrap64 (getTypeData r - 1))
    (convertToString r)
  have htr : (manageCaches c (getTypeData r) (convertToString r)).2 = [] := by
    unfold manageCaches
    simp only
    rw [ht, hkey, if_neg (fun h => absurd h.1 (by decide))]
  have hsame : ∀ k, k ≠ -1 →
      (manageCaches c (getTypeData r) (convertToString r)).1 k = c k := by
    intro k hk
    unfold manageCaches
    simp only
    rw [hs k, hkey, if_neg hk]
  have hneg : (manageCaches c (getTypeData r) (convertToString r)).1 (-1)
      = c (-1) ++ [convertToString r] := by
    rw [manageCaches_slot_neg, if_pos hkey]
  refine ⟨h0, htr, hsame, hneg, ?_⟩
  intro later
  obtain ⟨ha, hb⟩ := consume_agree later
    ((manageCaches c (getTypeData r) (convertToString r)).1, []) (c, []) hsame rfl
  obtain ⟨rest, hrest⟩ := consume_slot_neg later
    ((manageCaches c (getTypeData r) (convertToString r)).1, [])
  refine ⟨ha, hb, rest, ?_⟩
  rw [hrest]
  simp only
  rw [hneg]
  simp

/-- Witness for C9: a record of usage 1501 processed on the empty map. -/
theorem unclassified_vanishes_witness :
    (manageCaches emptyCaches (getTypeData ⟨⟨"u", 1, 1501, "ip", "p"⟩, "m"⟩)
        (convertToString ⟨⟨"u", 1, 1501, "ip", "p"⟩, "m"⟩)).2 = []
      ∧ (manageCaches emptyCaches (getTypeData ⟨⟨"u", 1, 1501, "ip", "p"⟩, "m"⟩)
        (convertToString ⟨⟨"u", 1, 1501, "ip", "p"⟩, "m"⟩)).1 (-1) = ["u|1|1501|ip|p|m"] :=
  ⟨(unclassified_vanishes emptyCaches Reachable.empty ⟨⟨"u", 1, 1501, "ip", "p"⟩, "m"⟩
      (by decide)).2.1,
    (unclassified_vanishes emptyCaches Reachable.empty ⟨⟨"u", 1, 1501, "ip", "p"⟩, "m"⟩
      (by decide)).2.2.2.1⟩

/-! ### Per-partition workers -/

theorem workerLoop_invariant {α : Type} (path : α → String) (line : α → String)
    (inp : List α) (cache : WritingCache) (hcache : cache.length < 5) :
    (workerLoop path line inp cache).1.length < 5
      ∧ (∀ w ∈ writes (workerLoop path line inp cache).2,
          w.1.length = 5 ∧ ∃ x ∈ inp, w.2 = path x)
      ∧ ((writes (workerLoop path line inp cache).2).map (fun w => w.1)).flatten
            ++ (workerLoop path line inp cache).1 = cache ++ inp.map line
      ∧ sends (workerLoop path line inp cache).2
          = (writes (workerLoop path line inp cache).2).map (fun w => w.1) := by
  induction inp using List.reverseRecOn with
  | nil => simp [workerLoop, writes, sends, hcache]
  | append_singleton inp x ih =>
    obtain ⟨h1, h2, h3, h4⟩ := ih
    rw [workerLoop_snoc]
    generalize workerLoop path line inp cache = st at h1 h2 h3 h4
    split_ifs with h5
    · have hlen : (st.1 ++ [line x]).length = 5 := by
        rw [List.length_append, List.length_singleton] at h5 ⊢; omega
      have hw : writes (st.2 ++ [Effect.WriteToFile (st.1 ++ [line x]) (path x),
          Effect.Send (st.1 ++ [line x]), Effect.ResetLocal])
          = writes st.2 ++ [(st.1 ++ [line x], path x)] := by
        rw [writes_append]; simp [writes]
      have hsd : sends (st.2 ++ [Effect.WriteToFile (st.1 ++ [line x]) (path x),
          Effect.Send (st.1 ++ [line x]), Effect.ResetLocal])
          = sends st.2 ++ [st.1 ++ [line x]] := by
        rw [sends_append]; simp [sends]
      refine ⟨by simp, ?_, ?_, ?_⟩
      · intro w hmem
        simp only [hw] at hmem
        rcases List.mem_append.1 hmem with h | h
        · obtain ⟨ha, y, hy, hp⟩ := h2 w h
          exact ⟨ha, y, List.mem_append_left _ hy, hp⟩
        · rw [List.mem_singleton] at h
          subst h
          exact ⟨hlen, x, by simp, rfl⟩
      · simp only [hw, List.map_append, List.map_cons, List.map_nil, List.flatten_append,
          List.flatten_cons, List.flatten_nil, List.append_nil]
        rw [← List.append_assoc, ← List.append_assoc, h3]
      · simp only [hw, hsd, h4, List.map_append, List.map_cons, List.map_nil]
    · refine ⟨by rw [List.length_append, List.length_singleton] at h5 ⊢; omega, ?_, ?_, h4⟩
      · intro w hmem
        obtain ⟨ha, y, hy, hp⟩ := h2 w hmem
        exact ⟨ha, y, List.mem_append_left _ hy, hp⟩
      · rw [← List.append_assoc, h3, List.map_append, List.map_cons, List.map_nil,
          List.append_assoc]

theorem chunks_eq (bs bs' : List (List String)) (r r' L : List String)
    (h5 : ∀ b ∈ bs, b.length = 5) (hr : r.length < 5) (hL : bs.flatten ++ r = L)
    (h5' : ∀ b ∈ bs', b.length = 5) (hr' : r'.length < 5) (hL' : bs'.flatten ++ r' = L) :
    bs = bs' := by
  obtain ⟨c1, _, _, _, c5⟩ := chunks_unique bs r L h5 hr hL
  obtain ⟨d1, _, _, _, d5⟩ := chunks_unique bs' r' L h5' hr' hL'
  apply List.ext_getElem?
  intro i
  by_cases hi : i < bs.length
  · rw [c5 i hi, d5 i (by omega)]
  · rw [List.getElem?_eq_none (by omega), List.getElem?_eq_none (by omega)]

theorem pairs_of_path (l : List (WritingCache × String)) (p : String)
    (h : ∀ w ∈ l, w.2 = p) : l = (l.map (fun w => w.1)).map (fun b => (b, p)) := by
  induction l with
  | nil => rfl
  | cons w l ih =>
    have hw := h w (List.mem_cons_self _ _)
    rw [List.map_cons, List.map_cons, ← ih (fun x hx => h x (List.mem_cons_of_mem _ hx)),
      ← hw]

/-- A worker that writes to partition `k`'s file, run from the empty batch over
the lines of `k`'s records, performs the writes of the Sequential variant that
go to that file. -/
theorem workerLoop_matches {α : Type} (path : α → String) (line : α → String)
    (q : List α) (input : List CsvData) (k : Int) (hk1 : 1 ≤ k) (hk4 : k ≤ 4)
    (hpath : ∀ x ∈ q, path x = getPath k)
    (hline : q.map line = (input.filter (fun r => getTypeData r = k)).map convertToString) :
    writes (workerLoop path line q []).2
      = (writes (SequentialWriter.StartWriting input).2).filter (fun w => w.2 = getPath k) := by
  obtain ⟨w1, w2, w3, _⟩ := workerLoop_invariant path line q [] (by simp)
  obtain ⟨s5, sr, scat⟩ := sequential_slot input k hk1 hk4
  rw [List.nil_append, hline] at w3
  have hbs : (writes (workerLoop path line q []).2).map (fun w => w.1)
      = batchesAt (getPath k) (SequentialWriter.StartWriting input).2 :=
    chunks_eq _ _ _ _ _
      (fun b hb => by
        obtain ⟨w, hw, hwb⟩ := List.mem_map.1 hb
        rw [← hwb]; exact (w2 w hw).1) w1 w3 s5 sr scat
  rw [pairs_of_path (writes (workerLoop path line q []).2) (getPath k)
      (fun w hw => by
        obtain ⟨_, x, hx, hp⟩ := w2 w hw
        rw [hp, hpath x hx]),
    pairs_of_path ((writes (SequentialWriter.StartWriting input).2).filter
      (fun w => w.2 = getPath k)) (getPath k)
      (fun w hw => by simpa using (List.mem_filter.1 hw).2),
    hbs]
  rfl

theorem route_snoc (input : List CsvData) (x : CsvData) :
    MultiGoroutinesWriter.route (input ++ [x])
      = (MultiGoroutinesWriter.route input).bind (fun channels =>
          if 0 ≤ wrap64 (getTypeData x - 1) ∧ wrap64 (getTypeData x - 1) < 4 then
            some (Function.update channels (wrap64 (getTypeData x - 1))
              (channels (wrap64 (getTypeData x - 1)) ++ [x]))
          else none) := by
  simp only [MultiGoroutinesWriter.route, List.foldl_append, List.foldl_cons,
    List.foldl_nil]

theorem route_classified (input : List CsvData)
    (hall : ∀ r ∈ input, 1 ≤ getTypeData r ∧ getTypeData r ≤ 4) :
    MultiGoroutinesWriter.route input
      = some (fun j => input.filter (fun r => getTypeData r - 1 = j)) := by
  induction input using List.reverseRecOn with
  | nil => rfl
  | append_singleton input x ih =>
    rw [route_snoc, ih (fun r hr => hall r (List.mem_append_left _ hr)),
      wrap64_getTypeData, Option.some_bind]
    obtain ⟨hx1, hx4⟩ := hall x (by simp)
    rw [if_pos ⟨by omega, by omega⟩]
    congr 1
    funext j
    by_cases hj : j = getTypeData x - 1
    · subst hj; simp [List.filter_append]
    · have hj' : ¬ getTypeData x - 1 = j := fun h => hj h.symm
      simp [Function.update_noteq hj, List.filter_append, hj']

theorem consume_written_count (msgs : List MiddleWare) (k : Int) (hk0 : 0 ≤ k) (hk3 : k ≤ 3) :
    (batchesAt (getPath (k + 1)) (consume (emptyCaches, []) msgs).2).flatten.length
      = 5 * ((msgs.filter (fun m => wrap64 (m.Typ - 1) = k)).length / 5) := by
  obtain ⟨hB, _, _, hK⟩ := consume_invariant msgs
  obtain ⟨h1, h2⟩ := hK k hk0 hk3
  obtain ⟨_, _, c3, _, _⟩ := chunks_unique _ _ _ h2 (hB k hk0 hk3) h1
  rw [c3, List.length_take]
  unfold slotLines
  rw [List.length_map]
  omega

theorem workerLoop_written_count {α : Type} (path : α → String) (line : α → String)
    (q : List α) :
    ((writes (workerLoop path line q []).2).map (fun w => w.1)).flatten.length
      = 5 * (q.length / 5) := by
  obtain ⟨w1, w2, w3, _⟩ := workerLoop_invariant path line q [] (by simp)
  rw [List.nil_append] at w3
  obtain ⟨_, _, c3, _, _⟩ := chunks_unique _ _ _
    (fun b hb => by
      obtain ⟨w, hw, hwb⟩ := List.mem_map.1 hb
      rw [← hwb]; exact (w2 w hw).1) w1 w3
  rw [c3, List.length_take, List.length_map]
  omega

/-- C8: for an input whose records all classify to partitions 1..4 and a
partition `k`, the router of the Partitioned variant delivers to queue `k-1`
exactly `k`'s records in arrival order, and `routineWorker k` run over that queue
from the empty batch, as well as `writerWorker` run over the messages of `k`'s
records (which every transform task addresses to queue `k-1`), performs exactly
the `WriteToFile` calls, batch and path, that the Sequential variant performs on
`k`'s file and sends the same batches; the number of persisted lines of
partition `k` is `5 * (N_k / 5)` in the Sequential variant, in the consumer of
the Pooled-Transform variant for every arrival order of the messages, and in
`writerWorker` for every arrival order of `k`'s messages on its queue. -/
theorem workers_match_sequential (input : List CsvData)
    (hall : ∀ r ∈ input, 1 ≤ getTypeData r ∧ getTypeData r ≤ 4)
    (k : Int) (hk1 : 1 ≤ k) (hk4 : k ≤ 4) :
    (∃ channels, MultiGoroutinesWriter.route input = some channels
        ∧ channels (k - 1) = input.filter (fun r => getTypeData r = k)
        ∧ writes (routineWorker k (channels (k - 1)) []).2
            = (writes (SequentialWriter.StartWriting input).2).filter
                (fun w => w.2 = getPath k)
        ∧ sends (routineWorker k (channels (k - 1)) []).2
            = batchesAt (getPath k) (SequentialWriter.StartWriting input).2)
      ∧ (∀ r ∈ input, getTypeData r = k →
          HighConcurrentWriter.transform r
            = some (k - 1, { Data := convertToString r, Typ := k }))
      ∧ writes (writerWorker ((input.filter (fun r => getTypeData r = k)).map
            (fun r => { Data := convertToString r, Typ := getTypeData r })) []).2
          = (writes (SequentialWriter.StartWriting input).2).filter
              (fun w => w.2 = getPath k)
      ∧ sends (writerWorker ((input.filter (fun r => getTypeData r = k)).map
            (fun r => { Data := convertToString r, Typ := getTypeData r })) []).2
          = batchesAt (getPath k) (SequentialWriter.StartWriting input).2
      ∧ (batchesAt (getPath k) (SequentialWriter.StartWriting input).2).flatten.length
          = 5 * ((input.filter (fun r => getTypeData r = k)).length / 5)
      ∧ (∀ msgs : List MiddleWare,
          List.Perm msgs
              (input.map (fun r => { Data := convertToString r, Typ := getTypeData r })) →
            (batchesAt (getPath k) (consume (emptyCaches, []) msgs).2).flatten.length
              = 5 * ((input.filter (fun r => getTypeData r = k)).length / 5))
      ∧ (∀ q : List MiddleWare,
          List.Perm q ((input.filter (fun r => getTypeData r = k)).map
              (fun r => { Data := convertToString r, Typ := getTypeData r })) →
            ((writes (writerWorker q []).2).map (fun w => w.1)).flatten.length
                = 5 * ((input.filter (fun r => getTypeData r = k)).length / 5)
              ∧ ∀ w ∈ writes (writerWorker q []).2, w.2 = getPath k) := by
  have hfilter : input.filter (fun r => decide (getTypeData r - 1 = k - 1))
      = input.filter (fun r => decide (getTypeData r = k)) :=
    List.filter_congr (fun r _ => decide_eq_decide.2 ⟨fun h => by omega, fun h => by omega⟩)
  have hroutine : writes (routineWorker k (input.filter (fun r => getTypeData r = k)) []).2
      = (writes (SequentialWriter.StartWriting input).2).filter
          (fun w => w.2 = getPath k) := by
    rw [routineWorker_eq]
    exact workerLoop_matches _ _ _ input k hk1 hk4 (fun _ _ => rfl) rfl
  have hwriter : writes (writerWorker ((input.filter (fun r => getTypeData r = k)).map
        (fun r => { Data := convertToString r, Typ := getTypeData r })) []).2
      = (writes (SequentialWriter.StartWriting input).2).filter
          (fun w => w.2 = getPath k) := by
    rw [writerWorker_eq]
    refine workerLoop_matches _ _ _ input k hk1 hk4 ?_ ?_
    · intro m hm
      obtain ⟨r, hr, hrm⟩ := List.mem_map.1 hm
      have hk : getTypeData r = k := by simpa using (List.mem_filter.1 hr).2
      rw [← hrm]
      simp only [hk]
    · rw [List.map_map]; rfl
  refine ⟨⟨_, route_classified input hall, ?_, ?_, ?_⟩, ?_, hwriter, ?_, ?_, ?_, ?_⟩
  · simp only [hfilter]
  · simp only [hfilter]; exact hroutine
  · simp only [hfilter]
    rw [routineWorker_eq, (workerLoop_invariant _ _ _ [] (by simp)).2.2.2,
      ← routineWorker_eq, hroutine]
    rfl
  · intro r _ hk
    have hw := wrap64_getTypeData r
    rw [hk] at hw
    unfold HighConcurrentWriter.transform
    simp only [hk, hw]
    rw [if_pos ⟨by omega, by omega⟩]
  · rw [writerWorker_eq, (workerLoop_invariant _ _ _ [] (by simp)).2.2.2,
      ← writerWorker_eq, hwriter]
    rfl
  · rw [(sequential_chunks input k hk1 hk4).2.2.1, List.length_take, List.length_map]
    omega
  · intro msgs hperm
    have hcount := consume_written_count msgs (k - 1) (by omega) (by omega)
    rw [sub_add_cancel] at hcount
    rw [hcount, (hperm.filter _).length_eq]
    have hlen := congrArg List.length (slotLines_records k input)
    unfold slotLines at hlen
    rw [List.length_map, List.length_map] at hlen
    rw [hlen]
  · intro q hperm
    refine ⟨?_, ?_⟩
    · rw [writerWorker_eq, workerLoop_written_count, hperm.length_eq, List.length_map]
    · intro w hw
      rw [writerWorker_eq] at hw
      obtain ⟨_, m, hm, hp⟩ := (workerLoop_invariant _ _ q [] (by simp)).2.1 w hw
      obtain ⟨r, hr, hrm⟩ := List.mem_map.1 (hperm.mem_iff.1 hm)
      have hk : getTypeData r = k := by simpa using (List.mem_filter.1 hr).2
      rw [hp, ← hrm]
      simp only [hk]

set_option maxRecDepth 100000 in
/-- Witness for C8: twenty records, five for each partition, and partition 1. -/
theorem workers_match_sequential_witness :
    writes (writerWorker (((List.map (fun u => ⟨⟨"u", u, u, "ip", "p"⟩, "m"⟩)
          [10, 200, 700, 1200, 20, 300, 800, 1300, 30, 400, 900, 1400, 40, 500, 1000, 1500,
            50, 101, 501, 1001]).filter (fun r => getTypeData r = 1)).map
            (fun r => { Data := convertToString r, Typ := getTypeData r })) []).2
      = (writes (SequentialWriter.StartWriting (List.map
          (fun u => ⟨⟨"u", u, u, "ip", "p"⟩, "m"⟩)
          [10, 200, 700, 1200, 20, 300, 800, 1300, 30, 400, 900, 1400, 40, 500, 1000, 1500,
            50, 101, 501, 1001])).2).filter (fun w => w.2 = getPath 1) :=
  (workers_match_sequential (List.map (fun u => ⟨⟨"u", u, u, "ip", "p"⟩, "m"⟩)
      [10, 200, 700, 1200, 20, 300, 800, 1300, 30, 400, 900, 1400, 40, 500, 1000, 1500,
        50, 101, 501, 1001]) (by decide) 1 (by decide) (by decide)).2.2.1

/-- C10: the record with usage 1501 and the one with usage -1 classify to 0, so
the queue index `getTypeData(record) - 1` is -1, outside 0..3: the router of the
Partitioned variant and the transform task of the Hybrid variant fail on the
slice index instead of forwarding the record. -/
theorem router_index_out_of_range :
    getTypeData ⟨⟨"u", 1, 1501, "ip", "p"⟩, "m"⟩ - 1 = -1
      ∧ MultiGoroutinesWriter.route [⟨⟨"u", 1, 1501, "ip", "p"⟩, "m"⟩] = none
      ∧ HighConcurrentWriter.transform ⟨⟨"u", 1, 1501, "ip", "p"⟩, "m"⟩ = none
      ∧ getTypeData ⟨⟨"u", 1, -1, "ip", "p"⟩, "m"⟩ - 1 = -1
      ∧ MultiGoroutinesWriter.route [⟨⟨"u", 1, -1, "ip", "p"⟩, "m"⟩] = none
      ∧ HighConcurrentWriter.transform ⟨⟨"u", 1, -1, "ip", "p"⟩, "m"⟩ = none := by
  refine ⟨by decide, rfl, by decide, by decide, rfl, by decide⟩

end Writer
